import Mathlib

/-!
Verification development for the File Organizer Tool (C sources:
`src/organizer.c`, `src/logger.c`, `src/main.c`).

The embedding models C strings as `List Char` (one entry per byte of the
NUL-terminated string), the filesystem as a finite association list from
absolute path to file type, and the outcome of the system calls the code
performs (`stat` readability, `mkdir`, `rename`, `opendir`) as a boolean
oracle environment.  The `readdir` stream is modelled as the list of entry
names the directory handle yields, in filesystem-provided order.
-/

/-- A C string (byte sequence without the terminating NUL). -/
abbrev CStr := List Char

/-- Converts a Lean string literal to the `List Char` model of a C string. -/
def str (s : String) : CStr := s.data

/-- File type as distinguished by `stat`: `S_ISREG`, `S_ISDIR`, or anything
else (symlink, device, fifo, socket). -/
inductive FType where
  | regular : FType
  | directory : FType
  | other : FType
deriving DecidableEq

/-- Filesystem state: a finite map from path to file type, represented as an
association list. -/
abbrev FS := List (CStr × FType)

/-- Looks a path up in the filesystem map (the truth underlying `stat`). -/
def lookupPath : FS → CStr → Option FType
  | [], _ => none
  | (q, t) :: rest, p => if q = p then some t else lookupPath rest p

/-- Removes every binding of a path from the filesystem map. -/
def removePath : FS → CStr → FS
  | [], _ => []
  | (q, t) :: rest, p =>
      if q = p then removePath rest p else (q, t) :: removePath rest p

/-- Sets the binding of a path in the filesystem map. -/
def insertPath (fs : FS) (p : CStr) (t : FType) : FS :=
  (p, t) :: removePath fs p

/-- Oracle environment deciding the outcome of the system calls the code
performs: whether `stat` on a path succeeds (readability/permissions),
whether `mkdir` and `rename` succeed apart from the modelled EEXIST /
existence conditions, and whether `opendir` succeeds. -/
structure Env where
  statOk : CStr → Bool
  mkdirOk : CStr → Bool
  renameOk : CStr → CStr → Bool
  opendirOk : CStr → Bool

/-- Result of `stat(p)`: `some t` when the call succeeds and reports file
type `t`, `none` when it fails (path absent or unreadable). -/
def statResult (env : Env) (fs : FS) (p : CStr) : Option FType :=
  if env.statOk p then lookupPath fs p else none

/-- The log messages `organizer.c` emits through `logger_log`, one
constructor per call site, carrying the formatted arguments. -/
inductive LogEvent where
  | invalidConfig : LogEvent
  | cannotAccess (p : CStr) : LogEvent
  | notDirectory (p : CStr) : LogEvent
  | openFailed (p : CStr) : LogEvent
  | organizing (p : CStr) (dryRun : Bool) : LogEvent
  | skipUnstat (p : CStr) : LogEvent
  | skipNonRegular (p : CStr) : LogEvent
  | notADirConflict (p : CStr) : LogEvent
  | mkdirFailed (p : CStr) : LogEvent
  | createdDir (p : CStr) : LogEvent
  | nameExhausted (filename : CStr) (dir : CStr) : LogEvent
  | dryRunMove (src : CStr) (dst : CStr) : LogEvent
  | moved (src : CStr) (dst : CStr) : LogEvent
  | moveFailed (src : CStr) (dst : CStr) : LogEvent
deriving DecidableEq

/-- The organizer's running state: filesystem, the `result` accumulator of
`organizer_run`, and the log emitted so far. -/
structure RunState where
  fs : FS
  result : Nat
  log : List LogEvent
deriving DecidableEq

/-- The `OrganizerConfig` structure of `organizer.h`; `target_dir` is a
possibly-NULL C string. -/
structure OrganizerConfig where
  target_dir : Option CStr
  dry_run : Bool
  verbose : Bool

/-- Whether `join_path` must insert a separator: it does unless `dir` is
nonempty and already ends in a slash or backslash. -/
def needs_sep (dir : CStr) : Bool :=
  match dir.getLast? with
  | some '/' => false
  | some '\\' => false
  | _ => true

/-- Embedding of `join_path` (organizer.c lines 114-132): `snprintf` into a
buffer of `bufsize` bytes truncates the result to `bufsize - 1` characters;
the C function ignores the `snprintf` return value, so truncation is silent.
With `bufsize = 0` the C function returns leaving the buffer untouched,
modelled as the empty string. -/
def join_path (bufsize : Nat) (dir name : CStr) : CStr :=
  if bufsize = 0 then []
  else
    let full := if needs_sep dir then dir ++ '/' :: name else dir ++ name
    full.take (bufsize - 1)

/-- Embedding of `to_lowercase` applied to one character: ASCII uppercase
letters are shifted by `- 'A' + 'a'`, everything else is unchanged. -/
def lower_char (c : Char) : Char :=
  if 65 ≤ c.toNat ∧ c.toNat ≤ 90 then Char.ofNat (c.toNat + 32) else c

/-- Embedding of `to_lowercase` (organizer.c lines 134-141). -/
def to_lowercase (s : CStr) : CStr := s.map lower_char

/-- Index of the last '.' in a string (`strrchr(name, '.')`). -/
def lastDot : CStr → Option Nat
  | [] => none
  | c :: cs =>
      match lastDot cs with
      | some i => some (i + 1)
      | none => if c = '.' then some 0 else none

/-- Embedding of `get_extension` (organizer.c lines 143-150): everything
after the last '.', or NULL when there is no '.' or it is the first
character. -/
def get_extension (name : CStr) : Option CStr :=
  match lastDot name with
  | none => none
  | some 0 => none
  | some i => some (name.drop (i + 1))

/-- Embedding of `EXTENSION_TABLE` (organizer.c lines 56-110), in source
order. -/
def EXTENSION_TABLE : List (CStr × CStr) :=
  [(str "jpg", str "Images"), (str "jpeg", str "Images"),
   (str "png", str "Images"), (str "gif", str "Images"),
   (str "bmp", str "Images"), (str "tif", str "Images"),
   (str "tiff", str "Images"), (str "svg", str "Images"),
   (str "txt", str "Documents"), (str "md", str "Documents"),
   (str "pdf", str "Documents"), (str "doc", str "Documents"),
   (str "docx", str "Documents"), (str "rtf", str "Documents"),
   (str "xls", str "Spreadsheets"), (str "xlsx", str "Spreadsheets"),
   (str "csv", str "Spreadsheets"),
   (str "ppt", str "Presentations"), (str "pptx", str "Presentations"),
   (str "mp3", str "Audio"), (str "wav", str "Audio"),
   (str "flac", str "Audio"), (str "aac", str "Audio"),
   (str "ogg", str "Audio"),
   (str "mp4", str "Video"), (str "mkv", str "Video"),
   (str "avi", str "Video"), (str "mov", str "Video"),
   (str "wmv", str "Video"),
   (str "zip", str "Archives"), (str "rar", str "Archives"),
   (str "7z", str "Archives"), (str "tar", str "Archives"),
   (str "gz", str "Archives"),
   (str "c", str "Source"), (str "h", str "Source"),
   (str "cpp", str "Source"), (str "hpp", str "Source"),
   (str "py", str "Source"), (str "java", str "Source"),
   (str "js", str "Source"), (str "ts", str "Source"),
   (str "cs", str "Source"), (str "go", str "Source"),
   (str "rb", str "Source"), (str "php", str "Source")]

/-- Embedding of `DEFAULT_CATEGORY` (organizer.c line 112). -/
def DEFAULT_CATEGORY : CStr := str "Other"

/-- First-match linear scan of the extension table (the `for` loop of
organizer.c lines 167-172). -/
def table_lookup : List (CStr × CStr) → CStr → Option CStr
  | [], _ => none
  | (k, v) :: rest, e => if k = e then some v else table_lookup rest e

/-- Embedding of `category_for_extension` (organizer.c lines 152-175):
NULL, empty, or over-length (≥ 64, the size of the local `tmp` buffer)
extensions fall through to the default category; otherwise the lowercased
extension is matched against the table, first match wins. -/
def category_for_extension (ext : Option CStr) : CStr :=
  match ext with
  | none => DEFAULT_CATEGORY
  | some e =>
      if e.length = 0 ∨ 64 ≤ e.length then DEFAULT_CATEGORY
      else
        match table_lookup EXTENSION_TABLE (to_lowercase e) with
        | some cat => cat
        | none => DEFAULT_CATEGORY

/-- Result of `ensure_directory_exists`: possibly-updated filesystem,
success flag (`0` return mapped to `true`), the `out_path` buffer content,
and the emitted log. -/
structure EnsureResult where
  fs : FS
  ok : Bool
  path : CStr
  log : List LogEvent
deriving DecidableEq

/-- Embedding of `ensure_directory_exists` (organizer.c lines 177-216).
`stat` succeeding on a directory is success with no side effect; on a
non-directory it is the not-a-directory failure.  When `stat` fails the code
calls `mkdir`, which (per POSIX) fails with EEXIST if the path exists at
all, fails when the oracle denies it, and otherwise creates exactly one
directory and logs the creation. -/
def ensure_directory_exists (env : Env) (fs : FS) (base_dir category : CStr)
    (out_size : Nat) : EnsureResult :=
  let out_path := join_path out_size base_dir category
  match statResult env fs out_path with
  | some FType.directory => ⟨fs, true, out_path, []⟩
  | some _ => ⟨fs, false, out_path, [LogEvent.notADirConflict out_path]⟩
  | none =>
      if lookupPath fs out_path = none ∧ env.mkdirOk out_path = true then
        ⟨insertPath fs out_path FType.directory, true, out_path,
          [LogEvent.createdDir out_path]⟩
      else
        ⟨fs, false, out_path, [LogEvent.mkdirFailed out_path]⟩

/-- Decimal digit character, `'0' + d`. -/
def digitChar (d : Nat) : Char := Char.ofNat (48 + d)

/-- Fuel-driven decimal rendering helper. -/
def natDecAux : Nat → Nat → List Char
  | 0, _ => []
  | fuel + 1, n =>
      if n < 10 then [digitChar n]
      else natDecAux fuel (n / 10) ++ [digitChar (n % 10)]

/-- Decimal rendering of a natural number, as `snprintf`'s `%d` produces for
the loop indices (all nonnegative). -/
def natDec (n : Nat) : List Char := natDecAux (n + 1) n

/-- Embedding of the `(stem, ext)` split of `build_unique_destination`
(organizer.c lines 231-251): split at the last '.', treating a missing dot
or a dot in first position as "no extension"; both halves are clamped to
the `PATH_MAX`-sized local buffers (4095 content bytes), and `ext` keeps
the dot. -/
def split_stem_ext (filename : CStr) : CStr × CStr :=
  match lastDot filename with
  | none => (filename.take 4095, [])
  | some 0 => (filename.take 4095, [])
  | some i => (filename.take (min i 4095), (filename.drop i).take 4095)

/-- The suffixed candidate `snprintf(out, out_size, "%s/%s_%d%s",
category_dir, name, i, ext)` builds before any truncation. -/
def candidate (category_dir name ext : CStr) (i : Nat) : CStr :=
  category_dir ++ '/' :: (name ++ '_' :: (natDec i ++ ext))

/-- Embedding of `build_unique_destination` (organizer.c lines 218-268):
try the plain join first; if occupied, split the filename and try suffixes
1 through 9999 in order, skipping candidates the buffer cannot hold
(`snprintf` returned `≥ out_size`) and returning the first candidate on
which `stat` fails; `none` models the `-1` exhaustion return. -/
def build_unique_destination (env : Env) (fs : FS)
    (category_dir filename : CStr) (out_size : Nat) : Option CStr :=
  let first := join_path out_size category_dir filename
  if statResult env fs first = none then some first
  else
    let se := split_stem_ext filename
    (List.range' 1 9999).findSome? fun i =>
      let cand := candidate category_dir se.1 se.2 i
      if out_size ≤ cand.length then none
      else if statResult env fs cand = none then some cand else none

/-- The per-entry pipeline of `organizer_run` after the regular-file check
(organizer.c lines 338-370): classify, provision the category directory,
resolve a unique destination, then act (dry-run log, or rename). -/
def actOn (env : Env) (base_dir : CStr) (dry_run : Bool) (s : RunState)
    (name src_path : CStr) : RunState :=
  let er := ensure_directory_exists env s.fs base_dir
      (category_for_extension (get_extension name)) 4096
  if er.ok then
    match build_unique_destination env er.fs er.path name 4096 with
    | none =>
        ⟨er.fs, 1, s.log ++ er.log ++ [LogEvent.nameExhausted name er.path]⟩
    | some dst =>
        if dry_run then
          ⟨er.fs, s.result, s.log ++ er.log ++ [LogEvent.dryRunMove src_path dst]⟩
        else if env.renameOk src_path dst then
          ⟨insertPath (removePath er.fs src_path) dst FType.regular, s.result,
            s.log ++ er.log ++ [LogEvent.moved src_path dst]⟩
        else
          ⟨er.fs, 1, s.log ++ er.log ++ [LogEvent.moveFailed src_path dst]⟩
  else ⟨er.fs, 1, s.log ++ er.log⟩

/-- One iteration of the `readdir` loop of `organizer_run` (organizer.c
lines 313-371): skip the pseudo-entries, stat the joined source path (skip
with a warning on failure), skip non-regular entries (debug log only when
verbose), and otherwise run the per-entry pipeline. -/
def processEntry (env : Env) (base_dir : CStr) (dry_run verbose : Bool)
    (s : RunState) (name : CStr) : RunState :=
  if name = str "." ∨ name = str ".." then s
  else
    let src_path := join_path 4096 base_dir name
    match statResult env s.fs src_path with
    | none => ⟨s.fs, s.result, s.log ++ [LogEvent.skipUnstat src_path]⟩
    | some ft =>
        if ft = FType.regular then actOn env base_dir dry_run s name src_path
        else if verbose then
          ⟨s.fs, s.result, s.log ++ [LogEvent.skipNonRegular src_path]⟩
        else s

/-- Embedding of `organizer_run` (organizer.c lines 270-375): validate the
configuration and target directory, then fold the per-entry step over the
`readdir` stream `entries`, starting from result `0`. -/
def organizer_run (env : Env) (config : Option OrganizerConfig)
    (entries : List CStr) (fs : FS) : RunState :=
  match config with
  | none => ⟨fs, 1, [LogEvent.invalidConfig]⟩
  | some cfg =>
      match cfg.target_dir with
      | none => ⟨fs, 1, [LogEvent.invalidConfig]⟩
      | some base_dir =>
          match statResult env fs base_dir with
          | none => ⟨fs, 1, [LogEvent.cannotAccess base_dir]⟩
          | some ft =>
              if ft = FType.directory then
                if env.opendirOk base_dir then
                  entries.foldl (processEntry env base_dir cfg.dry_run cfg.verbose)
                    ⟨fs, 0, [LogEvent.organizing base_dir cfg.dry_run]⟩
                else ⟨fs, 1, [LogEvent.openFailed base_dir]⟩
              else ⟨fs, 1, [LogEvent.notDirectory base_dir]⟩

/-- Oracle environment in which every system call succeeds. -/
def envOK : Env := ⟨fun _ => true, fun _ => true, fun _ _ => true, fun _ => true⟩

/-- The complete set of category names the classifier can return. -/
def CATEGORY_NAMES : List CStr := EXTENSION_TABLE.map Prod.snd ++ [DEFAULT_CATEGORY]

/-- Whether a log message reports a per-entry failure (the four `result = 1`
paths of `organizer_run`). -/
def isFailEvent : LogEvent → Bool
  | LogEvent.notADirConflict _ => true
  | LogEvent.mkdirFailed _ => true
  | LogEvent.nameExhausted _ _ => true
  | LogEvent.moveFailed _ _ => true
  | _ => false

/-- The log events that account for one regular directory entry `n` of
target directory `b`: the move performed on it (or planned under dry-run,
or failed), always into the category directory chosen by its extension, or
one of the per-entry errors of its pipeline. -/
def entryEvent (b n : CStr) (ev : LogEvent) : Prop :=
  (∃ rest, ev = LogEvent.moved (join_path 4096 b n)
      (join_path 4096 b (category_for_extension (get_extension n)) ++ '/' :: rest))
  ∨ (∃ rest, ev = LogEvent.dryRunMove (join_path 4096 b n)
      (join_path 4096 b (category_for_extension (get_extension n)) ++ '/' :: rest))
  ∨ (∃ rest, ev = LogEvent.moveFailed (join_path 4096 b n)
      (join_path 4096 b (category_for_extension (get_extension n)) ++ '/' :: rest))
  ∨ ev = LogEvent.notADirConflict (join_path 4096 b (category_for_extension (get_extension n)))
  ∨ ev = LogEvent.mkdirFailed (join_path 4096 b (category_for_extension (get_extension n)))
  ∨ ev = LogEvent.nameExhausted n (join_path 4096 b (category_for_extension (get_extension n)))

/-- Oracle environment in which every system call succeeds except creating
the directory `/t/Images`. -/
def envNoImages : Env :=
  ⟨fun _ => true, fun p => decide (p ≠ str "/t/Images"), fun _ _ => true, fun _ => true⟩

/-- A target directory whose name is 4089 bytes, used to exercise the
buffer-bound branch of the collision-suffix search. -/
def longBase : CStr := List.replicate 4089 'b'

/-- The category directory `join(longBase, "Other")` spelled out: exactly
4095 bytes, the largest path a `PATH_MAX` buffer can hold. -/
def cdLong : CStr := longBase ++ '/' :: str "Other"

/-- Filesystem for the exhaustion scenario: the regular file `longBase/x`
and the category directory `cdLong`. -/
def fsLong : FS :=
  [(join_path 4096 longBase (str "x"), FType.regular),
   (cdLong, FType.directory)]

/-! Helper lemmas about the filesystem map. -/

theorem lookupPath_removePath_ne (fs : FS) (p q : CStr) (h : p ≠ q) :
    lookupPath (removePath fs q) p = lookupPath fs p := by
  induction fs with
  | nil => rfl
  | cons hd tl ih =>
      obtain ⟨r, t⟩ := hd
      by_cases hr : r = q
      · simp only [removePath, if_pos hr, ih, lookupPath]
        rw [if_neg (fun hc : r = p => h (hc.symm.trans hr))]
      · simp only [removePath, if_neg hr, lookupPath]
        by_cases hp : r = p
        · rw [if_pos hp, if_pos hp]
        · rw [if_neg hp, if_neg hp, ih]

theorem lookupPath_insertPath_ne (fs : FS) (p q : CStr) (t : FType) (h : p ≠ q) :
    lookupPath (insertPath fs q t) p = lookupPath fs p := by
  simp only [insertPath, lookupPath]
  rw [if_neg (fun hc : q = p => h hc.symm), lookupPath_removePath_ne fs p q h]

theorem lookupPath_insertPath_self (fs : FS) (q : CStr) (t : FType) :
    lookupPath (insertPath fs q t) q = some t := by
  simp [insertPath, lookupPath]

/-! Helper lemmas about decimal rendering. -/

theorem natDecAux_length_le : ∀ (fuel n k : Nat), 1 ≤ k → n < 10 ^ k → k ≤ fuel →
    (natDecAux fuel n).length ≤ k := by
  intro fuel
  induction fuel with
  | zero => intro n k h1 _ hk; omega
  | succ fuel ih =>
      intro n k h1 hn hk
      by_cases hsmall : n < 10
      · simp [natDecAux, hsmall]; omega
      · have hk2 : 2 ≤ k := by
          by_contra hcon
          have : k = 1 := by omega
          subst this
          simp at hn
          omega
        have hdiv : n / 10 < 10 ^ (k - 1) := by
          have h10 : (0 : Nat) < 10 := by norm_num
          rw [Nat.div_lt_iff_lt_mul h10]
          have : 10 ^ (k - 1) * 10 = 10 ^ k := by
            rw [mul_comm, ← pow_succ']
            congr 1
            omega
          omega
        have := ih (n / 10) (k - 1) (by omega) hdiv (by omega)
        simp [natDecAux, hsmall, List.length_append]
        omega

theorem natDec_length_le_four (n : Nat) (h : n ≤ 9999) : (natDec n).length ≤ 4 := by
  by_cases hsmall : n < 10
  · simp [natDec, natDecAux, hsmall]
  · exact natDecAux_length_le (n + 1) n 4 (by omega) (by omega) (by omega)

theorem natDec_length_pos (n : Nat) : 1 ≤ (natDec n).length := by
  by_cases hsmall : n < 10
  · simp [natDec, natDecAux, hsmall]
  · simp [natDec, natDecAux, hsmall, List.length_append]

/-! Helper lemmas about path joining. -/

theorem join_path_eq_of_le (bufsize : Nat) (dir name : CStr) (h0 : bufsize ≠ 0)
    (h : dir.length + 1 + name.length ≤ bufsize - 1) :
    join_path bufsize dir name =
      (if needs_sep dir then dir ++ '/' :: name else dir ++ name) := by
  unfold join_path
  simp only [h0, if_false]
  by_cases hs : needs_sep dir
  · simp only [hs, if_true]
    exact List.take_of_length_le (by simp [List.length_append]; omega)
  · simp only [hs, if_false]
    exact List.take_of_length_le (by simp [List.length_append]; omega)

theorem join_path_inj (b m n : CStr)
    (hm : b.length + 1 + m.length ≤ 4095) (hn : b.length + 1 + n.length ≤ 4095)
    (h : join_path 4096 b m = join_path 4096 b n) : m = n := by
  rw [join_path_eq_of_le 4096 b m (by norm_num) (by omega),
      join_path_eq_of_le 4096 b n (by norm_num) (by omega)] at h
  by_cases hs : needs_sep b
  · simp only [hs, if_true] at h
    have := List.append_cancel_left h
    exact List.cons_injective.eq_iff.mp this
  · simp only [hs, if_false] at h
    exact List.append_cancel_left h

/-! Helper lemmas about the extension table. -/

theorem table_lookup_eq_some_of_mem :
    ∀ (t : List (CStr × CStr)) (k v : CStr),
      (k, v) ∈ t → (t.map Prod.fst).Nodup → table_lookup t k = some v := by
  intro t
  induction t with
  | nil => intro k v hmem _; cases hmem
  | cons hd tl ih =>
      intro k v hmem hnd
      obtain ⟨k0, v0⟩ := hd
      simp only [List.map_cons, List.nodup_cons] at hnd
      rcases List.mem_cons.mp hmem with heq | htl
      · obtain ⟨hk, hv⟩ := Prod.mk.injEq .. ▸ heq
        simp [table_lookup, hk.symm, hv.symm]
      · have hk0 : k0 ≠ k := by
          intro hc
          exact hnd.1 (hc ▸ List.mem_map_of_mem Prod.fst htl)
        simp [table_lookup, hk0, ih k v htl hnd.2]

theorem table_lookup_eq_none_of_not_mem :
    ∀ (t : List (CStr × CStr)) (k : CStr),
      k ∉ t.map Prod.fst → table_lookup t k = none := by
  intro t
  induction t with
  | nil => intro k _; rfl
  | cons hd tl ih =>
      intro k hk
      obtain ⟨k0, v0⟩ := hd
      simp only [List.map_cons, List.mem_cons] at hk
      push_neg at hk
      simp only [table_lookup]
      rw [if_neg (fun hc : k0 = k => hk.1 hc.symm)]
      exact ih k hk.2

theorem table_lookup_mem_values :
    ∀ (t : List (CStr × CStr)) (k v : CStr),
      table_lookup t k = some v → v ∈ t.map Prod.snd := by
  intro t
  induction t with
  | nil => intro k v h; cases h
  | cons hd tl ih =>
      intro k v h
      obtain ⟨k0, v0⟩ := hd
      simp only [table_lookup] at h
      by_cases hk : k0 = k
      · rw [if_pos hk] at h
        injection h with hv
        simp [hv.symm]
      · rw [if_neg hk] at h
        simp [ih k v h]

theorem extension_table_keys_nodup : (EXTENSION_TABLE.map Prod.fst).Nodup := by decide

theorem category_for_extension_mem (e : Option CStr) :
    category_for_extension e ∈ CATEGORY_NAMES := by
  rcases e with _ | x
  · simp [category_for_extension, CATEGORY_NAMES]
  · simp only [category_for_extension]
    by_cases hlen : x.length = 0 ∨ 64 ≤ x.length
    · rw [if_pos hlen]
      simp [CATEGORY_NAMES]
    · rw [if_neg hlen]
      generalize hlook : table_lookup EXTENSION_TABLE (to_lowercase x) = r
      rcases r with _ | cat
      · simp [CATEGORY_NAMES]
      · have := table_lookup_mem_values EXTENSION_TABLE (to_lowercase x) cat hlook
        simp [CATEGORY_NAMES, this]

theorem category_names_props :
    ∀ c ∈ CATEGORY_NAMES, 1 ≤ c.length ∧ c.length ≤ 13 ∧ needs_sep c = true := by
  decide

/-! Helper lemma: `findSome?` over a contiguous range returns the value at
the first index where the function fires, and `none` when it never fires. -/

theorem findSome?_range'_eq_some {α : Type} (f : Nat → Option α) (v : α) :
    ∀ (n s i : Nat), s ≤ i → i < s + n →
      (∀ j, s ≤ j → j < i → f j = none) → f i = some v →
      (List.range' s n).findSome? f = some v := by
  intro n
  induction n with
  | zero => intro s i h1 h2 _ _; omega
  | succ n ih =>
      intro s i h1 h2 hbefore hi
      rw [show List.range' s (n + 1) = s :: List.range' (s + 1) n from rfl]
      rw [List.findSome?_cons]
      by_cases hsi : s = i
      · rw [hsi, hi]
      · rw [hbefore s le_rfl (by omega)]
        exact ih (s + 1) i (by omega) (by omega)
          (fun j hj1 hj2 => hbefore j (by omega) hj2) hi

theorem findSome?_range'_eq_none {α : Type} (f : Nat → Option α) :
    ∀ (n s : Nat), (∀ j, s ≤ j → j < s + n → f j = none) →
      (List.range' s n).findSome? f = none := by
  intro n
  induction n with
  | zero => intro s _; rfl
  | succ n ih =>
      intro s hall
      rw [show List.range' s (n + 1) = s :: List.range' (s + 1) n from rfl]
      rw [List.findSome?_cons, hall s le_rfl (by omega)]
      exact ih (s + 1) (fun j hj1 hj2 => hall j (by omega) (by omega))

/-! Structural lemmas about `ensure_directory_exists`. -/

theorem ensure_eq_cases (env : Env) (fs : FS) (b c : CStr) (o : Nat) :
    ensure_directory_exists env fs b c o = ⟨fs, true, join_path o b c, []⟩
    ∨ ensure_directory_exists env fs b c o
        = ⟨fs, false, join_path o b c,
            [LogEvent.notADirConflict (join_path o b c)]⟩
    ∨ (ensure_directory_exists env fs b c o
        = ⟨insertPath fs (join_path o b c) FType.directory, true,
            join_path o b c, [LogEvent.createdDir (join_path o b c)]⟩
       ∧ lookupPath fs (join_path o b c) = none)
    ∨ ensure_directory_exists env fs b c o
        = ⟨fs, false, join_path o b c,
            [LogEvent.mkdirFailed (join_path o b c)]⟩ := by
  simp only [ensure_directory_exists]
  rcases hstat : statResult env fs (join_path o b c) with _ | t
  · dsimp only
    by_cases hc : lookupPath fs (join_path o b c) = none
        ∧ env.mkdirOk (join_path o b c) = true
    · rw [if_pos hc]
      exact Or.inr (Or.inr (Or.inl ⟨rfl, hc.1⟩))
    · rw [if_neg hc]
      exact Or.inr (Or.inr (Or.inr rfl))
  · cases t
    · exact Or.inr (Or.inl rfl)
    · exact Or.inl rfl
    · exact Or.inr (Or.inl rfl)

theorem ensure_path (env : Env) (fs : FS) (b c : CStr) (o : Nat) :
    (ensure_directory_exists env fs b c o).path = join_path o b c := by
  rcases ensure_eq_cases env fs b c o with h | h | ⟨h, _⟩ | h <;> rw [h]

theorem ensure_ok_log (env : Env) (fs : FS) (b c : CStr) (o : Nat)
    (h : (ensure_directory_exists env fs b c o).ok = true) :
    (ensure_directory_exists env fs b c o).log = []
    ∨ (ensure_directory_exists env fs b c o).log
        = [LogEvent.createdDir (join_path o b c)] := by
  rcases ensure_eq_cases env fs b c o with he | he | ⟨he, _⟩ | he <;>
    rw [he] at h ⊢
  · exact Or.inl rfl
  · cases h
  · exact Or.inr rfl
  · cases h

theorem ensure_fail_log (env : Env) (fs : FS) (b c : CStr) (o : Nat)
    (h : (ensure_directory_exists env fs b c o).ok = false) :
    (ensure_directory_exists env fs b c o).log
        = [LogEvent.notADirConflict (join_path o b c)]
    ∨ (ensure_directory_exists env fs b c o).log
        = [LogEvent.mkdirFailed (join_path o b c)] := by
  rcases ensure_eq_cases env fs b c o with he | he | ⟨he, _⟩ | he <;>
    rw [he] at h ⊢
  · cases h
  · exact Or.inl rfl
  · cases h
  · exact Or.inr rfl

theorem ensure_fail_fs (env : Env) (fs : FS) (b c : CStr) (o : Nat)
    (h : (ensure_directory_exists env fs b c o).ok = false) :
    (ensure_directory_exists env fs b c o).fs = fs := by
  rcases ensure_eq_cases env fs b c o with he | he | ⟨he, _⟩ | he
  · rw [he] at h; cases h
  · rw [he]
  · rw [he] at h; cases h
  · rw [he]

theorem ensure_preserves_lookup (env : Env) (fs : FS) (b c : CStr) (o : Nat)
    (p : CStr) (t : FType) (h : lookupPath fs p = some t) :
    lookupPath (ensure_directory_exists env fs b c o).fs p = some t := by
  rcases ensure_eq_cases env fs b c o with he | he | ⟨he, hfree⟩ | he <;> rw [he]
  · exact h
  · exact h
  · dsimp only
    rw [lookupPath_insertPath_ne fs p (join_path o b c) FType.directory
      (fun hc => by rw [hc, hfree] at h; cases h)]
    exact h
  · exact h

/-! Case enumerations for the per-entry pipeline. -/

theorem actOn_eq_cases (env : Env) (b : CStr) (dry : Bool) (s : RunState)
    (n src : CStr) :
    ((ensure_directory_exists env s.fs b (category_for_extension (get_extension n)) 4096).ok = false
      ∧ actOn env b dry s n src
          = ⟨(ensure_directory_exists env s.fs b (category_for_extension (get_extension n)) 4096).fs, 1,
             s.log ++ (ensure_directory_exists env s.fs b (category_for_extension (get_extension n)) 4096).log⟩)
    ∨ ((ensure_directory_exists env s.fs b (category_for_extension (get_extension n)) 4096).ok = true
      ∧ build_unique_destination env
          (ensure_directory_exists env s.fs b (category_for_extension (get_extension n)) 4096).fs
          (ensure_directory_exists env s.fs b (category_for_extension (get_extension n)) 4096).path n 4096 = none
      ∧ actOn env b dry s n src
          = ⟨(ensure_directory_exists env s.fs b (category_for_extension (get_extension n)) 4096).fs, 1,
             s.log ++ (ensure_directory_exists env s.fs b (category_for_extension (get_extension n)) 4096).log
               ++ [LogEvent.nameExhausted n
                    (ensure_directory_exists env s.fs b (category_for_extension (get_extension n)) 4096).path]⟩)
    ∨ (∃ dst,
        (ensure_directory_exists env s.fs b (category_for_extension (get_extension n)) 4096).ok = true
        ∧ build_unique_destination env
            (ensure_directory_exists env s.fs b (category_for_extension (get_extension n)) 4096).fs
            (ensure_directory_exists env s.fs b (category_for_extension (get_extension n)) 4096).path n 4096 = some dst
        ∧ dry = true
        ∧ actOn env b dry s n src
            = ⟨(ensure_directory_exists env s.fs b (category_for_extension (get_extension n)) 4096).fs, s.result,
               s.log ++ (ensure_directory_exists env s.fs b (category_for_extension (get_extension n)) 4096).log
                 ++ [LogEvent.dryRunMove src dst]⟩)
    ∨ (∃ dst,
        (ensure_directory_exists env s.fs b (category_for_extension (get_extension n)) 4096).ok = true
        ∧ build_unique_destination env
            (ensure_directory_exists env s.fs b (category_for_extension (get_extension n)) 4096).fs
            (ensure_directory_exists env s.fs b (category_for_extension (get_extension n)) 4096).path n 4096 = some dst
        ∧ dry = false ∧ env.renameOk src dst = true
        ∧ actOn env b dry s n src
            = ⟨insertPath
                 (removePath (ensure_directory_exists env s.fs b (category_for_extension (get_extension n)) 4096).fs src)
                 dst FType.regular, s.result,
               s.log ++ (ensure_directory_exists env s.fs b (category_for_extension (get_extension n)) 4096).log
                 ++ [LogEvent.moved src dst]⟩)
    ∨ (∃ dst,
        (ensure_directory_exists env s.fs b (category_for_extension (get_extension n)) 4096).ok = true
        ∧ build_unique_destination env
            (ensure_directory_exists env s.fs b (category_for_extension (get_extension n)) 4096).fs
            (ensure_directory_exists env s.fs b (category_for_extension (get_extension n)) 4096).path n 4096 = some dst
        ∧ dry = false ∧ env.renameOk src dst = false
        ∧ actOn env b dry s n src
            = ⟨(ensure_directory_exists env s.fs b (category_for_extension (get_extension n)) 4096).fs, 1,
               s.log ++ (ensure_directory_exists env s.fs b (category_for_extension (get_extension n)) 4096).log
                 ++ [LogEvent.moveFailed src dst]⟩) := by
  simp only [actOn]
  by_cases hok : (ensure_directory_exists env s.fs b
      (category_for_extension (get_extension n)) 4096).ok
  · rw [if_pos hok]
    rcases hbuild : build_unique_destination env
        (ensure_directory_exists env s.fs b (category_for_extension (get_extension n)) 4096).fs
        (ensure_directory_exists env s.fs b (category_for_extension (get_extension n)) 4096).path
        n 4096 with _ | dst
    · dsimp only
      exact Or.inr (Or.inl ⟨hok, rfl, rfl⟩)
    · dsimp only
      by_cases hdry : dry = true
      · rw [if_pos hdry]
        exact Or.inr (Or.inr (Or.inl ⟨dst, hok, rfl, hdry, rfl⟩))
      · rw [if_neg hdry]
        have hdry2 : dry = false := by
          cases dry
          · rfl
          · exact absurd rfl hdry
        by_cases hren : env.renameOk src dst = true
        · rw [if_pos hren]
          exact Or.inr (Or.inr (Or.inr (Or.inl ⟨dst, hok, rfl, hdry2, hren, rfl⟩)))
        · rw [if_neg hren]
          have hren2 : env.renameOk src dst = false := by
            cases h : env.renameOk src dst
            · rfl
            · exact absurd h hren
          exact Or.inr (Or.inr (Or.inr (Or.inr ⟨dst, hok, rfl, hdry2, hren2, rfl⟩)))
  · rw [if_neg hok]
    exact Or.inl ⟨by simpa using hok, rfl⟩

theorem processEntry_eq_cases (env : Env) (b : CStr) (d v : Bool) (s : RunState)
    (n : CStr) :
    ((n = str "." ∨ n = str "..") ∧ processEntry env b d v s n = s)
    ∨ (¬(n = str "." ∨ n = str "..")
        ∧ statResult env s.fs (join_path 4096 b n) = none
        ∧ processEntry env b d v s n
            = ⟨s.fs, s.result, s.log ++ [LogEvent.skipUnstat (join_path 4096 b n)]⟩)
    ∨ (∃ ft, ¬(n = str "." ∨ n = str "..")
        ∧ statResult env s.fs (join_path 4096 b n) = some ft ∧ ft ≠ FType.regular
        ∧ (processEntry env b d v s n = s
           ∨ processEntry env b d v s n
               = ⟨s.fs, s.result, s.log ++ [LogEvent.skipNonRegular (join_path 4096 b n)]⟩))
    ∨ (¬(n = str "." ∨ n = str "..")
        ∧ statResult env s.fs (join_path 4096 b n) = some FType.regular
        ∧ processEntry env b d v s n = actOn env b d s n (join_path 4096 b n)) := by
  simp only [processEntry]
  by_cases hdot : n = str "." ∨ n = str ".."
  · rw [if_pos hdot]
    exact Or.inl ⟨hdot, rfl⟩
  · rw [if_neg hdot]
    rcases hstat : statResult env s.fs (join_path 4096 b n) with _ | ft
    · exact Or.inr (Or.inl ⟨hdot, rfl, rfl⟩)
    · dsimp only
      by_cases hreg : ft = FType.regular
      · rw [if_pos hreg]
        exact Or.inr (Or.inr (Or.inr ⟨hdot, by rw [hreg], rfl⟩))
      · rw [if_neg hreg]
        by_cases hv : v = true
        · rw [if_pos hv]
          exact Or.inr (Or.inr (Or.inl ⟨ft, hdot, rfl, hreg, Or.inr rfl⟩))
        · rw [if_neg hv]
          exact Or.inr (Or.inr (Or.inl ⟨ft, hdot, rfl, hreg, Or.inl rfl⟩))

/-! Log monotonicity and result range. -/

theorem actOn_log_mono (env : Env) (b : CStr) (dry : Bool) (s : RunState)
    (n src : CStr) : ∃ t, (actOn env b dry s n src).log = s.log ++ t := by
  rcases actOn_eq_cases env b dry s n src with
    ⟨_, he⟩ | ⟨_, _, he⟩ | ⟨dst, _, _, _, he⟩ | ⟨dst, _, _, _, _, he⟩ | ⟨dst, _, _, _, _, he⟩
  · rw [he]
    exact ⟨_, rfl⟩
  · rw [he]
    exact ⟨_, List.append_assoc _ _ _⟩
  · rw [he]
    exact ⟨_, List.append_assoc _ _ _⟩
  · rw [he]
    exact ⟨_, List.append_assoc _ _ _⟩
  · rw [he]
    exact ⟨_, List.append_assoc _ _ _⟩

theorem processEntry_log_mono (env : Env) (b : CStr) (d v : Bool) (s : RunState)
    (n : CStr) : ∃ t, (processEntry env b d v s n).log = s.log ++ t := by
  rcases processEntry_eq_cases env b d v s n with
    ⟨_, he⟩ | ⟨_, _, he⟩ | ⟨ft, _, _, _, he | he⟩ | ⟨_, _, he⟩
  · rw [he]
    exact ⟨[], (List.append_nil _).symm⟩
  · rw [he]
    exact ⟨_, rfl⟩
  · rw [he]
    exact ⟨[], (List.append_nil _).symm⟩
  · rw [he]
    exact ⟨_, rfl⟩
  · rw [he]
    exact actOn_log_mono env b d s n (join_path 4096 b n)

theorem foldl_log_mono (env : Env) (b : CStr) (d v : Bool) :
    ∀ (l : List CStr) (s : RunState),
      ∃ t, (l.foldl (processEntry env b d v) s).log = s.log ++ t := by
  intro l
  induction l with
  | nil => intro s; exact ⟨[], (List.append_nil _).symm⟩
  | cons m rest ih =>
      intro s
      obtain ⟨t1, h1⟩ := processEntry_log_mono env b d v s m
      obtain ⟨t2, h2⟩ := ih (processEntry env b d v s m)
      exact ⟨t1 ++ t2, by rw [List.foldl_cons, h2, h1, List.append_assoc]⟩

theorem mem_log_foldl (env : Env) (b : CStr) (d v : Bool) (l : List CStr)
    (s : RunState) (ev : LogEvent) (h : ev ∈ s.log) :
    ev ∈ (l.foldl (processEntry env b d v) s).log := by
  obtain ⟨t, ht⟩ := foldl_log_mono env b d v l s
  rw [ht]
  exact List.mem_append.mpr (Or.inl h)

theorem actOn_result (env : Env) (b : CStr) (dry : Bool) (s : RunState)
    (n src : CStr) :
    (actOn env b dry s n src).result = s.result
    ∨ (actOn env b dry s n src).result = 1 := by
  rcases actOn_eq_cases env b dry s n src with
    ⟨_, he⟩ | ⟨_, _, he⟩ | ⟨dst, _, _, _, he⟩ | ⟨dst, _, _, _, _, he⟩ | ⟨dst, _, _, _, _, he⟩
  · rw [he]; exact Or.inr rfl
  · rw [he]; exact Or.inr rfl
  · rw [he]; exact Or.inl rfl
  · rw [he]; exact Or.inl rfl
  · rw [he]; exact Or.inr rfl

theorem processEntry_result (env : Env) (b : CStr) (d v : Bool) (s : RunState)
    (n : CStr) :
    (processEntry env b d v s n).result = s.result
    ∨ (processEntry env b d v s n).result = 1 := by
  rcases processEntry_eq_cases env b d v s n with
    ⟨_, he⟩ | ⟨_, _, he⟩ | ⟨ft, _, _, _, he | he⟩ | ⟨_, _, he⟩
  · rw [he]; exact Or.inl rfl
  · rw [he]; exact Or.inl rfl
  · rw [he]; exact Or.inl rfl
  · rw [he]; exact Or.inl rfl
  · rw [he]; exact actOn_result env b d s n (join_path 4096 b n)

theorem foldl_result_range (env : Env) (b : CStr) (d v : Bool) :
    ∀ (l : List CStr) (s : RunState), s.result = 0 ∨ s.result = 1 →
      (l.foldl (processEntry env b d v) s).result = 0
      ∨ (l.foldl (processEntry env b d v) s).result = 1 := by
  intro l
  induction l with
  | nil => intro s h; exact h
  | cons m rest ih =>
      intro s h
      rw [List.foldl_cons]
      refine ih (processEntry env b d v s m) ?_
      rcases processEntry_result env b d v s m with hr | hr
      · rw [hr]; exact h
      · rw [hr]; exact Or.inr rfl

theorem processEntry_fail_invariant (env : Env) (b : CStr) (d v : Bool)
    (s : RunState) (n : CStr)
    (h : s.result = 0 ↔ ∀ ev ∈ s.log, isFailEvent ev = false) :
    (processEntry env b d v s n).result = 0
      ↔ ∀ ev ∈ (processEntry env b d v s n).log, isFailEvent ev = false := by
  rcases processEntry_eq_cases env b d v s n with
    ⟨_, he⟩ | ⟨_, _, he⟩ | ⟨ft, _, _, _, he | he⟩ | ⟨_, _, he⟩
  · rw [he]; exact h
  · rw [he]
    dsimp only
    rw [List.forall_mem_append]
    constructor
    · intro h0
      exact ⟨h.mp h0, by intro ev hev; rw [List.mem_singleton.mp hev]; rfl⟩
    · intro hall
      exact h.mpr hall.1
  · rw [he]; exact h
  · rw [he]
    dsimp only
    rw [List.forall_mem_append]
    constructor
    · intro h0
      exact ⟨h.mp h0, by intro ev hev; rw [List.mem_singleton.mp hev]; rfl⟩
    · intro hall
      exact h.mpr hall.1
  · rw [he]
    rcases actOn_eq_cases env b d s n (join_path 4096 b n) with
      ⟨hok, ha⟩ | ⟨hok, _, ha⟩ | ⟨dst, hok, _, _, ha⟩ | ⟨dst, hok, _, _, _, ha⟩ |
      ⟨dst, hok, _, _, _, ha⟩
    · rw [ha]
      dsimp only
      constructor
      · intro h0; exact absurd h0 one_ne_zero
      · intro hall
        exfalso
        rcases ensure_fail_log env s.fs b (category_for_extension (get_extension n)) 4096 hok with
          hl | hl
        · have := hall (LogEvent.notADirConflict
              (join_path 4096 b (category_for_extension (get_extension n))))
            (List.mem_append_right _ (by rw [hl]; exact List.mem_singleton.mpr rfl))
          simp [isFailEvent] at this
        · have := hall (LogEvent.mkdirFailed
              (join_path 4096 b (category_for_extension (get_extension n))))
            (List.mem_append_right _ (by rw [hl]; exact List.mem_singleton.mpr rfl))
          simp [isFailEvent] at this
    · rw [ha]
      dsimp only
      constructor
      · intro h0; exact absurd h0 one_ne_zero
      · intro hall
        exfalso
        have := hall (LogEvent.nameExhausted n
            (ensure_directory_exists env s.fs b (category_for_extension (get_extension n)) 4096).path)
          (List.mem_append_right _ (List.mem_singleton.mpr rfl))
        simp [isFailEvent] at this
    · rw [ha]
      dsimp only
      rw [List.append_assoc, List.forall_mem_append]
      constructor
      · intro h0
        refine ⟨h.mp h0, ?_⟩
        rw [List.forall_mem_append]
        constructor
        · intro ev hev
          rcases ensure_ok_log env s.fs b (category_for_extension (get_extension n)) 4096 hok with
            hl | hl
          · rw [hl] at hev; cases hev
          · rw [hl] at hev
            rw [List.mem_singleton.mp hev]
            rfl
        · intro ev hev
          rw [List.mem_singleton.mp hev]
          rfl
      · intro hall
        exact h.mpr hall.1
    · rw [ha]
      dsimp only
      rw [List.append_assoc, List.forall_mem_append]
      constructor
      · intro h0
        refine ⟨h.mp h0, ?_⟩
        rw [List.forall_mem_append]
        constructor
        · intro ev hev
          rcases ensure_ok_log env s.fs b (category_for_extension (get_extension n)) 4096 hok with
            hl | hl
          · rw [hl] at hev; cases hev
          · rw [hl] at hev
            rw [List.mem_singleton.mp hev]
            rfl
        · intro ev hev
          rw [List.mem_singleton.mp hev]
          rfl
      · intro hall
        exact h.mpr hall.1
    · rw [ha]
      dsimp only
      constructor
      · intro h0; exact absurd h0 one_ne_zero
      · intro hall
        exfalso
        have := hall (LogEvent.moveFailed (join_path 4096 b n) dst)
          (List.mem_append_right _ (List.mem_singleton.mpr rfl))
        simp [isFailEvent] at this

theorem foldl_fail_invariant (env : Env) (b : CStr) (d v : Bool) :
    ∀ (l : List CStr) (s : RunState),
      (s.result = 0 ↔ ∀ ev ∈ s.log, isFailEvent ev = false) →
      ((l.foldl (processEntry env b d v) s).result = 0
        ↔ ∀ ev ∈ (l.foldl (processEntry env b d v) s).log, isFailEvent ev = false) := by
  intro l
  induction l with
  | nil => intro s h; exact h
  | cons m rest ih =>
      intro s h
      rw [List.foldl_cons]
      exact ih (processEntry env b d v s m) (processEntry_fail_invariant env b d v s m h)

/-! ## Claim theorems -/

/-- C2: for every extension that matches a table entry case-insensitively
(ASCII lowercasing), `category_for_extension` returns that entry's
category; for every absent, empty, over-length (≥ 64), or unmatched
extension it returns "Other". -/
theorem category_for_extension_spec :
    category_for_extension none = str "Other"
    ∧ (∀ e : CStr, e.length = 0 → category_for_extension (some e) = str "Other")
    ∧ (∀ e : CStr, 64 ≤ e.length → category_for_extension (some e) = str "Other")
    ∧ (∀ e cat : CStr, 0 < e.length → e.length < 64 →
        (to_lowercase e, cat) ∈ EXTENSION_TABLE →
        category_for_extension (some e) = cat)
    ∧ (∀ e : CStr, to_lowercase e ∉ EXTENSION_TABLE.map Prod.fst →
        category_for_extension (some e) = str "Other") := by
  refine ⟨rfl, ?_, ?_, ?_, ?_⟩
  · intro e h
    simp only [category_for_extension]
    rw [if_pos (Or.inl h)]
    rfl
  · intro e h
    simp only [category_for_extension]
    rw [if_pos (Or.inr h)]
    rfl
  · intro e cat h0 h64 hmem
    simp only [category_for_extension]
    rw [if_neg (by omega)]
    rw [table_lookup_eq_some_of_mem EXTENSION_TABLE (to_lowercase e) cat hmem
      extension_table_keys_nodup]
  · intro e hmem
    simp only [category_for_extension]
    by_cases hlen : e.length = 0 ∨ 64 ≤ e.length
    · rw [if_pos hlen]
      rfl
    · rw [if_neg hlen, table_lookup_eq_none_of_not_mem EXTENSION_TABLE (to_lowercase e) hmem]
      rfl

/-- Witness for C2: `JPG` maps to Images case-insensitively, `txt` to
Documents, and an unknown extension to Other, at concrete inputs. -/
theorem category_for_extension_spec_witness :
    category_for_extension (some (str "JPG")) = str "Images"
    ∧ category_for_extension (some (str "txt")) = str "Documents"
    ∧ category_for_extension (some (str "weird")) = str "Other"
    ∧ category_for_extension none = str "Other" :=
  ⟨category_for_extension_spec.2.2.2.1 (str "JPG") (str "Images")
      (by decide) (by decide) (by decide),
   category_for_extension_spec.2.2.2.1 (str "txt") (str "Documents")
      (by decide) (by decide) (by decide),
   category_for_extension_spec.2.2.2.2 (str "weird") (by decide),
   category_for_extension_spec.1⟩

/-- C6: refuted as stated — `join_path` ignores the `snprintf` return
value, so an overlong result is silently truncated: joining "abcdef" and
"ghij" into an 8-byte buffer yields the shortened path "abcdef/" with no
error signal (the function has no error channel at all). -/
theorem join_path_silent_truncation :
    join_path 8 (str "abcdef") (str "ghij") = str "abcdef/"
    ∧ join_path 8 (str "abcdef") (str "ghij")
        ≠ (str "abcdef" ++ '/' :: str "ghij")
    ∧ 8 - 1 < (str "abcdef").length + 1 + (str "ghij").length := by decide

/-- C10: `organizer_run` returns exactly 0 or exactly 1 for every
environment, configuration, entry stream, and filesystem state. -/
theorem organizer_run_result_zero_or_one (env : Env)
    (config : Option OrganizerConfig) (entries : List CStr) (fs : FS) :
    (organizer_run env config entries fs).result = 0
    ∨ (organizer_run env config entries fs).result = 1 := by
  unfold organizer_run
  rcases config with _ | cfg
  · exact Or.inr rfl
  · obtain ⟨td, dry, verb⟩ := cfg
    dsimp only
    rcases td with _ | base
    · exact Or.inr rfl
    · dsimp only
      rcases hstat : statResult env fs base with _ | ft
      · exact Or.inr rfl
      · dsimp only
        by_cases hdir : ft = FType.directory
        · rw [hdir, if_pos rfl]
          by_cases hopen : env.opendirOk base = true
          · rw [if_pos hopen]
            exact foldl_result_range env base dry verb entries
              ⟨fs, 0, [LogEvent.organizing base dry]⟩ (Or.inl rfl)
          · rw [if_neg hopen]
            exact Or.inr rfl
        · rw [if_neg hdir]
          exact Or.inr rfl

/-- C8: when the configuration is null, the target directory is null, does
not exist (stat fails), is not a directory, or cannot be opened, the run
aborts with result 1, the filesystem is untouched, and the log is the
single validation message — no entry is processed. -/
theorem organizer_run_validation_failure (env : Env)
    (config : Option OrganizerConfig) (entries : List CStr) (fs : FS)
    (h : config = none
      ∨ (∃ dry verb, config = some ⟨none, dry, verb⟩)
      ∨ (∃ base dry verb, config = some ⟨some base, dry, verb⟩
          ∧ (statResult env fs base = none
             ∨ (∃ t, statResult env fs base = some t ∧ t ≠ FType.directory)
             ∨ env.opendirOk base = false))) :
    (organizer_run env config entries fs).fs = fs
    ∧ (organizer_run env config entries fs).result = 1
    ∧ ∃ ev, (organizer_run env config entries fs).log = [ev] := by
  rcases h with rfl | ⟨dry, verb, rfl⟩ | ⟨base, dry, verb, rfl, hbad⟩
  · exact ⟨rfl, rfl, LogEvent.invalidConfig, rfl⟩
  · exact ⟨rfl, rfl, LogEvent.invalidConfig, rfl⟩
  · unfold organizer_run
    dsimp only
    rcases hbad with hstat | ⟨t, hstat, hne⟩ | hopen
    · rw [hstat]
      exact ⟨rfl, rfl, LogEvent.cannotAccess base, rfl⟩
    · rw [hstat]
      dsimp only
      rw [if_neg hne]
      exact ⟨rfl, rfl, LogEvent.notDirectory base, rfl⟩
    · rcases hstat : statResult env fs base with _ | t
      · exact ⟨rfl, rfl, LogEvent.cannotAccess base, rfl⟩
      · dsimp only
        by_cases hdir : t = FType.directory
        · rw [if_pos hdir, if_neg (by rw [hopen]; exact Bool.false_ne_true)]
          exact ⟨rfl, rfl, LogEvent.openFailed base, rfl⟩
        · rw [if_neg hdir]
          exact ⟨rfl, rfl, LogEvent.notDirectory base, rfl⟩

/-- Witness for C8: a nonexistent target directory aborts a run at concrete
inputs. -/
theorem organizer_run_validation_failure_witness :
    (organizer_run envOK (some ⟨some (str "/nope"), false, false⟩)
        [str "a.jpg"] []).fs = []
    ∧ (organizer_run envOK (some ⟨some (str "/nope"), false, false⟩)
        [str "a.jpg"] []).result = 1
    ∧ ∃ ev, (organizer_run envOK (some ⟨some (str "/nope"), false, false⟩)
        [str "a.jpg"] []).log = [ev] :=
  organizer_run_validation_failure envOK _ [str "a.jpg"] []
    (Or.inr (Or.inr ⟨str "/nope", false, false, rfl, Or.inl (by decide)⟩))

/-- C5: after validation succeeds, the scan is a fold that continues over
every remaining entry regardless of earlier failures (splitting the entry
stream anywhere shows the suffix is still processed from the intermediate
state), and the run returns 0 exactly when no per-entry failure was
recorded in the log. -/
theorem organizer_run_failure_isolation (env : Env) (base : CStr)
    (dry verb : Bool) (entries : List CStr) (fs : FS)
    (hstat : statResult env fs base = some FType.directory)
    (hopen : env.opendirOk base = true) :
    (∀ es1 es2, entries = es1 ++ es2 →
       organizer_run env (some ⟨some base, dry, verb⟩) entries fs
         = es2.foldl (processEntry env base dry verb)
             (es1.foldl (processEntry env base dry verb)
               ⟨fs, 0, [LogEvent.organizing base dry]⟩))
    ∧ ((organizer_run env (some ⟨some base, dry, verb⟩) entries fs).result = 0
        ↔ ∀ ev ∈ (organizer_run env (some ⟨some base, dry, verb⟩) entries fs).log,
            isFailEvent ev = false) := by
  have hrun : organizer_run env (some ⟨some base, dry, verb⟩) entries fs
      = entries.foldl (processEntry env base dry verb)
          ⟨fs, 0, [LogEvent.organizing base dry]⟩ := by
    unfold organizer_run
    dsimp only
    rw [hstat]
    dsimp only
    rw [if_pos rfl, if_pos hopen]
  constructor
  · intro es1 es2 heq
    rw [hrun, heq, List.foldl_append]
  · rw [hrun]
    refine foldl_fail_invariant env base dry verb entries
      ⟨fs, 0, [LogEvent.organizing base dry]⟩ ?_
    constructor
    · intro _ ev hev
      rw [List.mem_singleton.mp hev]
      rfl
    · intro _
      rfl

/-- Witness for C5: with `mkdir` of `/t/Images` denied, the run still moves
`b.txt` into Documents after failing on `a.jpg`, and returns 1; the
result-0-iff-no-failure equivalence is instantiated by the theorem. -/
theorem organizer_run_failure_isolation_witness :
    ((organizer_run envNoImages (some ⟨some (str "/t"), false, false⟩)
        [str "a.jpg", str "b.txt"]
        [(str "/t", FType.directory), (str "/t/a.jpg", FType.regular),
         (str "/t/b.txt", FType.regular)]).result = 1
      ∧ LogEvent.moved (str "/t/b.txt") (str "/t/Documents/b.txt")
          ∈ (organizer_run envNoImages (some ⟨some (str "/t"), false, false⟩)
              [str "a.jpg", str "b.txt"]
              [(str "/t", FType.directory), (str "/t/a.jpg", FType.regular),
               (str "/t/b.txt", FType.regular)]).log
      ∧ LogEvent.mkdirFailed (str "/t/Images")
          ∈ (organizer_run envNoImages (some ⟨some (str "/t"), false, false⟩)
              [str "a.jpg", str "b.txt"]
              [(str "/t", FType.directory), (str "/t/a.jpg", FType.regular),
               (str "/t/b.txt", FType.regular)]).log)
    ∧ ((organizer_run envNoImages (some ⟨some (str "/t"), false, false⟩)
        [str "a.jpg", str "b.txt"]
        [(str "/t", FType.directory), (str "/t/a.jpg", FType.regular),
         (str "/t/b.txt", FType.regular)]).result = 0
      ↔ ∀ ev ∈ (organizer_run envNoImages (some ⟨some (str "/t"), false, false⟩)
          [str "a.jpg", str "b.txt"]
          [(str "/t", FType.directory), (str "/t/a.jpg", FType.regular),
           (str "/t/b.txt", FType.regular)]).log, isFailEvent ev = false) :=
  ⟨by decide,
   (organizer_run_failure_isolation envNoImages (str "/t") false false
      [str "a.jpg", str "b.txt"]
      [(str "/t", FType.directory), (str "/t/a.jpg", FType.regular),
       (str "/t/b.txt", FType.regular)] (by decide) (by decide)).2⟩

/-- C1: refuted as stated — under dry-run no file is moved and the planned
move is logged, but the filesystem is NOT left identical: `organizer_run`
calls `ensure_directory_exists` before the dry-run check, so the category
directory `/t/Images` is created during a dry run. -/
theorem dry_run_creates_directory :
    lookupPath [(str "/t", FType.directory), (str "/t/a.jpg", FType.regular)]
        (str "/t/Images") = none
    ∧ (organizer_run envOK (some ⟨some (str "/t"), true, false⟩) [str "a.jpg"]
        [(str "/t", FType.directory), (str "/t/a.jpg", FType.regular)]).fs
        ≠ [(str "/t", FType.directory), (str "/t/a.jpg", FType.regular)]
    ∧ lookupPath (organizer_run envOK (some ⟨some (str "/t"), true, false⟩)
        [str "a.jpg"]
        [(str "/t", FType.directory), (str "/t/a.jpg", FType.regular)]).fs
        (str "/t/Images") = some FType.directory
    ∧ lookupPath (organizer_run envOK (some ⟨some (str "/t"), true, false⟩)
        [str "a.jpg"]
        [(str "/t", FType.directory), (str "/t/a.jpg", FType.regular)]).fs
        (str "/t/a.jpg") = some FType.regular
    ∧ LogEvent.dryRunMove (str "/t/a.jpg") (str "/t/Images/a.jpg")
        ∈ (organizer_run envOK (some ⟨some (str "/t"), true, false⟩)
            [str "a.jpg"]
            [(str "/t", FType.directory), (str "/t/a.jpg", FType.regular)]).log
    ∧ (organizer_run envOK (some ⟨some (str "/t"), true, false⟩) [str "a.jpg"]
        [(str "/t", FType.directory), (str "/t/a.jpg", FType.regular)]).result
        = 0 := by decide

/-- C9: once `join(base_dir, category)` names an existing directory,
`ensure_directory_exists` succeeds with no side effect and no log, so the
call is idempotent (shown unconditionally at the filesystem level: a second
call never changes the filesystem produced by the first); when the path
names an existing non-directory the call fails and performs no filesystem
mutation. -/
theorem ensure_directory_exists_idempotent :
    (∀ (env : Env) (fs : FS) (b c : CStr) (o : Nat),
       statResult env fs (join_path o b c) = some FType.directory →
       ensure_directory_exists env fs b c o = ⟨fs, true, join_path o b c, []⟩)
    ∧ (∀ (env : Env) (fs : FS) (b c : CStr) (o : Nat),
       (ensure_directory_exists env
           (ensure_directory_exists env fs b c o).fs b c o).fs
         = (ensure_directory_exists env fs b c o).fs)
    ∧ (∀ (env : Env) (fs : FS) (b c : CStr) (o : Nat) (t : FType),
       t ≠ FType.directory → statResult env fs (join_path o b c) = some t →
       (ensure_directory_exists env fs b c o).fs = fs
       ∧ (ensure_directory_exists env fs b c o).ok = false) := by
  have hdir : ∀ (env : Env) (fs : FS) (b c : CStr) (o : Nat),
      statResult env fs (join_path o b c) = some FType.directory →
      ensure_directory_exists env fs b c o = ⟨fs, true, join_path o b c, []⟩ := by
    intro env fs b c o hstat
    simp only [ensure_directory_exists]
    rw [hstat]
  refine ⟨hdir, ?_, ?_⟩
  · intro env fs b c o
    rcases ensure_eq_cases env fs b c o with he | he | ⟨he, hfree⟩ | he
    · rw [he]
      dsimp only
      rw [he]
    · rw [he]
      dsimp only
      rw [he]
    · rw [he]
      dsimp only
      by_cases hso : env.statOk (join_path o b c) = true
      · rw [hdir env (insertPath fs (join_path o b c) FType.directory) b c o
          (by simp only [statResult, hso, if_pos]; exact lookupPath_insertPath_self fs (join_path o b c) FType.directory)]
      · simp only [ensure_directory_exists, statResult, hso]
        rw [if_neg (by simp)]
        dsimp only
        rw [if_neg (by
          rw [lookupPath_insertPath_self fs (join_path o b c) FType.directory]
          intro hc
          exact Option.noConfusion hc.1)]
    · rw [he]
      dsimp only
      rw [he]
  · intro env fs b c o t ht hstat
    simp only [ensure_directory_exists]
    rw [hstat]
    cases t
    · exact ⟨rfl, rfl⟩
    · exact absurd rfl ht
    · exact ⟨rfl, rfl⟩

/-- Witness for C9: with `/t/Images` an existing directory the call is a
no-op, and with `/t/Images` an existing regular file it fails without
mutation, at concrete inputs. -/
theorem ensure_directory_exists_idempotent_witness :
    ensure_directory_exists envOK [(str "/t/Images", FType.directory)]
        (str "/t") (str "Images") 4096
      = ⟨[(str "/t/Images", FType.directory)], true, str "/t/Images", []⟩
    ∧ (ensure_directory_exists envOK [(str "/t/Images", FType.regular)]
        (str "/t") (str "Images") 4096).fs = [(str "/t/Images", FType.regular)]
    ∧ (ensure_directory_exists envOK [(str "/t/Images", FType.regular)]
        (str "/t") (str "Images") 4096).ok = false :=
  ⟨by
    have := ensure_directory_exists_idempotent.1 envOK
      [(str "/t/Images", FType.directory)] (str "/t") (str "Images") 4096
      (by decide)
    rw [this]
    decide,
   (ensure_directory_exists_idempotent.2.2 envOK
      [(str "/t/Images", FType.regular)] (str "/t") (str "Images") 4096
      FType.regular (by decide) (by decide)).1,
   (ensure_directory_exists_idempotent.2.2 envOK
      [(str "/t/Images", FType.regular)] (str "/t") (str "Images") 4096
      FType.regular (by decide) (by decide)).2⟩

/-- C3: `build_unique_destination` returns the plain join when nothing
exists there; otherwise it tries the suffixed candidates `stem_i` (suffix
before the extension, split at the last dot) for `i = 1, 2, ...` in
increasing order and returns the first candidate at which `stat` fails,
provided the candidates fit the `PATH_MAX` buffer. -/
theorem build_unique_destination_first_free (env : Env) (fs : FS)
    (cd fn : CStr)
    (hfit : ∀ i, 1 ≤ i → i ≤ 9999 →
      (candidate cd (split_stem_ext fn).1 (split_stem_ext fn).2 i).length < 4096) :
    (statResult env fs (join_path 4096 cd fn) = none →
      build_unique_destination env fs cd fn 4096 = some (join_path 4096 cd fn))
    ∧ (∀ i, 1 ≤ i → i ≤ 9999 →
        statResult env fs (join_path 4096 cd fn) ≠ none →
        (∀ j, 1 ≤ j → j < i →
          statResult env fs
            (candidate cd (split_stem_ext fn).1 (split_stem_ext fn).2 j) ≠ none) →
        statResult env fs
          (candidate cd (split_stem_ext fn).1 (split_stem_ext fn).2 i) = none →
        build_unique_destination env fs cd fn 4096
          = some (candidate cd (split_stem_ext fn).1 (split_stem_ext fn).2 i)) := by
  constructor
  · intro hfree
    simp only [build_unique_destination]
    rw [if_pos hfree]
  · intro i h1 h2 hocc hbefore hfree
    simp only [build_unique_destination]
    rw [if_neg hocc]
    refine findSome?_range'_eq_some _ _ 9999 1 i h1 (by omega) ?_ ?_
    · intro j hj1 hj2
      dsimp only
      by_cases hlen : 4096 ≤ (candidate cd (split_stem_ext fn).1 (split_stem_ext fn).2 j).length
      · rw [if_pos hlen]
      · rw [if_neg hlen, if_neg (hbefore j hj1 hj2)]
    · dsimp only
      rw [if_neg (by have := hfit i h1 h2; omega), if_pos hfree]

/-- Witness for C3: with `report.txt` and `report_1.txt` both present in
the category directory, resolving `report.txt` yields `report_2.txt`. -/
theorem build_unique_destination_first_free_witness :
    build_unique_destination envOK
        [(str "/t/Docs", FType.directory),
         (str "/t/Docs/report.txt", FType.regular),
         (str "/t/Docs/report_1.txt", FType.regular)]
        (str "/t/Docs") (str "report.txt") 4096
      = some (str "/t/Docs/report_2.txt") := by
  have hsplit : split_stem_ext (str "report.txt") = (str "report", str ".txt") := by
    decide
  have hfit : ∀ i, 1 ≤ i → i ≤ 9999 →
      (candidate (str "/t/Docs") (split_stem_ext (str "report.txt")).1
        (split_stem_ext (str "report.txt")).2 i).length < 4096 := by
    intro i h1 h2
    rw [hsplit]
    have hdec := natDec_length_le_four i (by omega)
    have h7 : (str "/t/Docs").length = 7 := by decide
    have h6 : (str "report").length = 6 := by decide
    have h4 : (str ".txt").length = 4 := by decide
    simp only [candidate, List.length_append, List.length_cons]
    omega
  have h := (build_unique_destination_first_free envOK
      [(str "/t/Docs", FType.directory),
       (str "/t/Docs/report.txt", FType.regular),
       (str "/t/Docs/report_1.txt", FType.regular)]
      (str "/t/Docs") (str "report.txt") hfit).2 2 (by omega) (by omega)
      (by decide)
      (by
        intro j hj1 hj2
        have hj : j = 1 := by omega
        subst hj
        decide)
      (by decide)
  rw [h]
  rw [show candidate (str "/t/Docs") (split_stem_ext (str "report.txt")).1
      (split_stem_ext (str "report.txt")).2 2 = str "/t/Docs/report_2.txt" from by decide]

/-- C7: when the plain destination is occupied and every suffixed candidate
1..9999 is occupied or does not fit the buffer, the bounded search returns
the exhaustion error (the loop is a total function over the fixed range
1..9999, so it always terminates); the orchestrator then records the
failure for that entry and no file is moved: every file present before is
still present unchanged afterwards. -/
theorem name_space_exhausted_spec :
    (∀ (env : Env) (fs : FS) (cd fn : CStr) (osz : Nat),
       statResult env fs (join_path osz cd fn) ≠ none →
       (∀ i, 1 ≤ i → i ≤ 9999 →
         osz ≤ (candidate cd (split_stem_ext fn).1 (split_stem_ext fn).2 i).length
         ∨ statResult env fs
             (candidate cd (split_stem_ext fn).1 (split_stem_ext fn).2 i) ≠ none) →
       build_unique_destination env fs cd fn osz = none)
    ∧ (∀ (env : Env) (base : CStr) (dry verb : Bool) (s : RunState) (n : CStr),
       ¬(n = str "." ∨ n = str "..") →
       statResult env s.fs (join_path 4096 base n) = some FType.regular →
       (ensure_directory_exists env s.fs base
         (category_for_extension (get_extension n)) 4096).ok = true →
       build_unique_destination env
         (ensure_directory_exists env s.fs base
           (category_for_extension (get_extension n)) 4096).fs
         (ensure_directory_exists env s.fs base
           (category_for_extension (get_extension n)) 4096).path n 4096 = none →
       (processEntry env base dry verb s n).result = 1
       ∧ LogEvent.nameExhausted n
           (ensure_directory_exists env s.fs base
             (category_for_extension (get_extension n)) 4096).path
           ∈ (processEntry env base dry verb s n).log
       ∧ (∀ p t, lookupPath s.fs p = some t →
           lookupPath (processEntry env base dry verb s n).fs p = some t)) := by
  constructor
  · intro env fs cd fn osz hocc hall
    simp only [build_unique_destination]
    rw [if_neg hocc]
    refine findSome?_range'_eq_none _ 9999 1 ?_
    intro j hj1 hj2
    dsimp only
    rcases hall j hj1 (by omega) with hlen | hne
    · rw [if_pos hlen]
    · by_cases hlen2 : osz ≤ (candidate cd (split_stem_ext fn).1 (split_stem_ext fn).2 j).length
      · rw [if_pos hlen2]
      · rw [if_neg hlen2, if_neg hne]
  · intro env base dry verb s n hdot hstat hok hbuild
    rcases processEntry_eq_cases env base dry verb s n with
      ⟨hd, _⟩ | ⟨_, hs, _⟩ | ⟨ft, _, hs, hnr, _⟩ | ⟨_, _, he⟩
    · exact absurd hd hdot
    · rw [hstat] at hs
      cases hs
    · rw [hstat] at hs
      injection hs with hft
      exact absurd hft.symm hnr
    · rw [he]
      rcases actOn_eq_cases env base dry s n (join_path 4096 base n) with
        ⟨hok2, _⟩ | ⟨_, _, ha⟩ | ⟨dst, _, hb2, _, _⟩ | ⟨dst, _, hb2, _, _, _⟩ |
        ⟨dst, _, hb2, _, _, _⟩
      · rw [hok2] at hok
        cases hok
      · rw [ha]
        refine ⟨rfl, List.mem_append_right _ (List.mem_singleton.mpr rfl), ?_⟩
        intro p t hl
        exact ensure_preserves_lookup env s.fs base
          (category_for_extension (get_extension n)) 4096 p t hl
      · rw [hb2] at hbuild
        cases hbuild
      · rw [hb2] at hbuild
        cases hbuild
      · rw [hb2] at hbuild
        cases hbuild

theorem statResult_envOK (fs : FS) (p : CStr) :
    statResult envOK fs p = lookupPath fs p := by
  simp [statResult, envOK]

theorem longBase_length : longBase.length = 4089 := by
  rw [longBase, List.length_replicate]

theorem longBase_getLast : longBase.getLast? = some 'b' := by
  rw [longBase, show (4089 : Nat) = 4088 + 1 from rfl, List.replicate_succ']
  rw [List.getLast?_append_of_ne_nil _ (by simp)]
  rfl

theorem needs_sep_longBase : needs_sep longBase = true := by
  unfold needs_sep
  rw [longBase_getLast]
  decide

theorem cdLong_eq : join_path 4096 longBase (str "Other") = cdLong := by
  rw [join_path_eq_of_le 4096 longBase (str "Other") (by norm_num)
    (by rw [longBase_length]; decide)]
  rw [needs_sep_longBase, if_pos rfl]
  rfl

theorem cdLong_length : cdLong.length = 4095 := by
  have h5 : (str "Other").length = 5 := by decide
  simp only [cdLong, List.length_append, List.length_cons, longBase_length, h5]

theorem cdLong_getLast : cdLong.getLast? = some 'r' := by
  rw [cdLong, List.getLast?_append_of_ne_nil _ (by simp)]
  rfl

theorem needs_sep_cdLong : needs_sep cdLong = true := by
  unfold needs_sep
  rw [cdLong_getLast]
  decide

theorem srcLong_eq : join_path 4096 longBase (str "x") = longBase ++ '/' :: str "x" := by
  rw [join_path_eq_of_le 4096 longBase (str "x") (by norm_num)
    (by rw [longBase_length]; decide)]
  rw [needs_sep_longBase, if_pos rfl]

theorem srcLong_ne_cdLong : join_path 4096 longBase (str "x") ≠ cdLong := by
  intro h
  have h1 : (join_path 4096 longBase (str "x")).length = 4091 := by
    rw [srcLong_eq]
    have hx : (str "x").length = 1 := by decide
    simp only [List.length_append, List.length_cons, longBase_length, hx]
  rw [h, cdLong_length] at h1
  exact absurd h1 (by norm_num)

theorem lookup_fsLong_cd : lookupPath fsLong cdLong = some FType.directory := by
  simp only [fsLong, lookupPath]
  rw [if_neg srcLong_ne_cdLong]
  simp

theorem lookup_fsLong_src :
    lookupPath fsLong (join_path 4096 longBase (str "x")) = some FType.regular := by
  simp only [fsLong, lookupPath]
  simp

theorem joinCd_x : join_path 4096 cdLong (str "x") = cdLong := by
  simp only [join_path]
  rw [if_neg (by norm_num : ¬(4096 = 0))]
  rw [needs_sep_cdLong, if_pos rfl]
  rw [show (4096 : Nat) - 1 = 4095 from rfl]
  rw [List.take_append_eq_append_take]
  rw [List.take_of_length_le (by rw [cdLong_length])]
  rw [cdLong_length]
  simp

theorem ensureLong :
    ensure_directory_exists envOK fsLong longBase
      (category_for_extension (get_extension (str "x"))) 4096
      = ⟨fsLong, true, cdLong, []⟩ := by
  rw [show category_for_extension (get_extension (str "x")) = str "Other" from by decide]
  simp only [ensure_directory_exists]
  rw [cdLong_eq]
  rw [show statResult envOK fsLong cdLong = some FType.directory from by
    rw [statResult_envOK]; exact lookup_fsLong_cd]

/-- Witness for C7: with the 4089-byte target directory, every suffixed
candidate overflows the `PATH_MAX` buffer and the plain name is occupied,
so resolution fails, the entry is recorded as failed with the exhaustion
message, and no file is moved. -/
theorem name_space_exhausted_spec_witness :
    build_unique_destination envOK fsLong cdLong (str "x") 4096 = none
    ∧ (processEntry envOK longBase false false ⟨fsLong, 0, []⟩ (str "x")).result = 1
    ∧ LogEvent.nameExhausted (str "x")
        (ensure_directory_exists envOK fsLong longBase
          (category_for_extension (get_extension (str "x"))) 4096).path
        ∈ (processEntry envOK longBase false false ⟨fsLong, 0, []⟩ (str "x")).log := by
  have hocc : statResult envOK fsLong (join_path 4096 cdLong (str "x")) ≠ none := by
    rw [joinCd_x, statResult_envOK, lookup_fsLong_cd]
    simp
  have hall : ∀ i, 1 ≤ i → i ≤ 9999 →
      4096 ≤ (candidate cdLong (split_stem_ext (str "x")).1
        (split_stem_ext (str "x")).2 i).length
      ∨ statResult envOK fsLong
          (candidate cdLong (split_stem_ext (str "x")).1
            (split_stem_ext (str "x")).2 i) ≠ none := by
    intro i h1 h2
    left
    rw [show split_stem_ext (str "x") = (str "x", ([] : CStr)) from by decide]
    have hp := natDec_length_pos i
    have hx : (str "x").length = 1 := by decide
    simp only [candidate, List.length_append, List.length_cons, List.length_nil,
      cdLong_length, hx]
    omega
  have hb1 : build_unique_destination envOK fsLong cdLong (str "x") 4096 = none :=
    name_space_exhausted_spec.1 envOK fsLong cdLong (str "x") 4096 hocc hall
  have h2 := name_space_exhausted_spec.2 envOK longBase false false
      ⟨fsLong, 0, []⟩ (str "x") (by decide)
      (by dsimp only; rw [statResult_envOK]; exact lookup_fsLong_src)
      (by dsimp only; rw [ensureLong])
      (by dsimp only; rw [ensureLong]; exact hb1)
  exact ⟨hb1, h2.1, h2.2.1⟩

/-! Machinery for the run-level invariant (C4). -/

theorem category_facts (e : Option CStr) :
    1 ≤ (category_for_extension e).length
    ∧ (category_for_extension e).length ≤ 13
    ∧ needs_sep (category_for_extension e) = true :=
  category_names_props _ (category_for_extension_mem e)

theorem cdir_eq (b : CStr) (e : Option CStr) (hb : b.length ≤ 4080) :
    join_path 4096 b (category_for_extension e)
      = (if needs_sep b then b ++ '/' :: category_for_extension e
         else b ++ category_for_extension e) := by
  refine join_path_eq_of_le 4096 b (category_for_extension e) (by norm_num) ?_
  have h13 := (category_facts e).2.1
  omega

theorem needs_sep_append (l1 l2 : CStr) (h : l2 ≠ []) :
    needs_sep (l1 ++ l2) = needs_sep l2 := by
  unfold needs_sep
  rw [List.getLast?_append_of_ne_nil _ h]

theorem category_ne_nil (e : Option CStr) : category_for_extension e ≠ [] := by
  intro hc
  have h1 := (category_facts e).1
  rw [hc] at h1
  cases h1

theorem needs_sep_cdir (b : CStr) (e : Option CStr) (hb : b.length ≤ 4080) :
    needs_sep (join_path 4096 b (category_for_extension e)) = true := by
  rw [cdir_eq b e hb]
  have hne := category_ne_nil e
  by_cases hs : needs_sep b
  · rw [if_pos hs,
      show b ++ '/' :: category_for_extension e
          = (b ++ ['/']) ++ category_for_extension e from by simp,
      needs_sep_append _ _ hne]
    exact (category_facts e).2.2
  · rw [if_neg hs, needs_sep_append _ _ hne]
    exact (category_facts e).2.2

theorem cdir_length_le (b : CStr) (e : Option CStr) (hb : b.length ≤ 4080) :
    (join_path 4096 b (category_for_extension e)).length ≤ 4094 := by
  rw [cdir_eq b e hb]
  have h13 := (category_facts e).2.1
  by_cases hs : needs_sep b
  · rw [if_pos hs]
    simp only [List.length_append, List.length_cons]
    omega
  · rw [if_neg hs]
    simp only [List.length_append]
    omega

theorem build_unique_shape (env : Env) (fs : FS) (b n dst : CStr)
    (hb : b.length ≤ 4080)
    (h : build_unique_destination env fs
        (join_path 4096 b (category_for_extension (get_extension n))) n 4096
        = some dst) :
    ∃ rest, dst
      = join_path 4096 b (category_for_extension (get_extension n)) ++ '/' :: rest := by
  set cd := join_path 4096 b (category_for_extension (get_extension n)) with hcd
  have hsep : needs_sep cd = true := needs_sep_cdir b (get_extension n) hb
  have hlen : cd.length ≤ 4094 := cdir_length_le b (get_extension n) hb
  simp only [build_unique_destination] at h
  by_cases hfirst : statResult env fs (join_path 4096 cd n) = none
  · rw [if_pos hfirst] at h
    injection h with hdst
    rw [← hdst]
    rw [show join_path 4096 cd n = (if needs_sep cd then cd ++ '/' :: n else cd ++ n).take 4095
      from by simp only [join_path]; rw [if_neg (by norm_num : ¬(4096 = 0))]]
    rw [hsep, if_pos rfl]
    rw [List.take_append_eq_append_take, List.take_of_length_le (by omega)]
    rw [show 4095 - cd.length = (4094 - cd.length) + 1 from by omega]
    rw [List.take_succ_cons]
    exact ⟨_, rfl⟩
  · rw [if_neg hfirst] at h
    obtain ⟨i, _, hf⟩ := List.exists_of_findSome?_eq_some h
    by_cases hl2 : 4096 ≤ (candidate cd (split_stem_ext n).1 (split_stem_ext n).2 i).length
    · rw [if_pos hl2] at hf
      cases hf
    · rw [if_neg hl2] at hf
      by_cases hst : statResult env fs
          (candidate cd (split_stem_ext n).1 (split_stem_ext n).2 i) = none
      · rw [if_pos hst] at hf
        injection hf with hdst
        rw [← hdst]
        exact ⟨_, rfl⟩
      · rw [if_neg hst] at hf
        cases hf

theorem dst_ne_join (b n cat_rest : CStr) (e : Option CStr)
    (hb : b.length ≤ 4080) (hn : b.length + 1 + n.length ≤ 4095)
    (hsn : '/' ∉ n) :
    join_path 4096 b n
      ≠ join_path 4096 b (category_for_extension e) ++ '/' :: cat_rest := by
  intro hc
  rw [join_path_eq_of_le 4096 b n (by norm_num) (by omega), cdir_eq b e hb] at hc
  by_cases hs : needs_sep b
  · rw [if_pos hs, if_pos hs] at hc
    simp only [List.append_assoc, List.cons_append] at hc
    have h2 := List.append_cancel_left hc
    injection h2 with _ h3
    exact hsn (h3 ▸ List.mem_append_right _ (List.mem_cons_self _ _))
  · rw [if_neg hs, if_neg hs] at hc
    simp only [List.append_assoc, List.cons_append] at hc
    have h3 := List.append_cancel_left hc
    exact hsn (h3 ▸ List.mem_append_right _ (List.mem_cons_self _ _))

theorem processEntry_preserves_lookup (env : Env) (b : CStr) (d v : Bool)
    (s : RunState) (m n : CStr) (t : FType)
    (hb : b.length ≤ 4080)
    (hm : b.length + 1 + m.length ≤ 4095) (hn : b.length + 1 + n.length ≤ 4095)
    (hsn : '/' ∉ n) (hne : m ≠ n)
    (hl : lookupPath s.fs (join_path 4096 b n) = some t) :
    lookupPath (processEntry env b d v s m).fs (join_path 4096 b n) = some t := by
  rcases processEntry_eq_cases env b d v s m with
    ⟨_, he⟩ | ⟨_, _, he⟩ | ⟨ft, _, _, _, he | he⟩ | ⟨_, _, he⟩
  · rw [he]; exact hl
  · rw [he]; exact hl
  · rw [he]; exact hl
  · rw [he]; exact hl
  · rw [he]
    rcases actOn_eq_cases env b d s m (join_path 4096 b m) with
      ⟨_, ha⟩ | ⟨_, _, ha⟩ | ⟨dst, _, _, _, ha⟩ | ⟨dst, hok, hbl, _, _, ha⟩ |
      ⟨dst, _, _, _, _, ha⟩
    · rw [ha]
      exact ensure_preserves_lookup env s.fs b
        (category_for_extension (get_extension m)) 4096 _ t hl
    · rw [ha]
      exact ensure_preserves_lookup env s.fs b
        (category_for_extension (get_extension m)) 4096 _ t hl
    · rw [ha]
      exact ensure_preserves_lookup env s.fs b
        (category_for_extension (get_extension m)) 4096 _ t hl
    · rw [ha]
      dsimp only
      rw [ensure_path] at hbl
      obtain ⟨rest, hrest⟩ := build_unique_shape env
        (ensure_directory_exists env s.fs b (category_for_extension (get_extension m)) 4096).fs
        b m dst hb hbl
      have hpd : join_path 4096 b n ≠ dst := by
        rw [hrest]
        exact dst_ne_join b n rest (get_extension m) hb hn hsn
      have hps : join_path 4096 b n ≠ join_path 4096 b m := by
        intro hc
        exact hne (join_path_inj b n m hn hm hc).symm
      rw [lookupPath_insertPath_ne _ _ _ _ hpd, lookupPath_removePath_ne _ _ _ hps]
      exact ensure_preserves_lookup env s.fs b
        (category_for_extension (get_extension m)) 4096 _ t hl
    · rw [ha]
      exact ensure_preserves_lookup env s.fs b
        (category_for_extension (get_extension m)) 4096 _ t hl

theorem foldl_preserves_lookup (env : Env) (b : CStr) (d v : Bool) :
    ∀ (l : List CStr) (s : RunState) (n : CStr) (t : FType),
      b.length ≤ 4080 →
      (∀ m ∈ l, b.length + 1 + m.length ≤ 4095) →
      b.length + 1 + n.length ≤ 4095 →
      '/' ∉ n → n ∉ l →
      lookupPath s.fs (join_path 4096 b n) = some t →
      lookupPath (l.foldl (processEntry env b d v) s).fs (join_path 4096 b n)
        = some t := by
  intro l
  induction l with
  | nil => intro s n t _ _ _ _ _ h; exact h
  | cons m rest ih =>
      intro s n t hb hml hnl hsn hnin hl
      rw [List.foldl_cons]
      have hne : m ≠ n := fun hc => hnin (hc ▸ List.mem_cons_self m rest)
      exact ih (processEntry env b d v s m) n t hb
        (fun x hx => hml x (List.mem_cons_of_mem _ hx)) hnl hsn
        (fun hc => hnin (List.mem_cons_of_mem _ hc))
        (processEntry_preserves_lookup env b d v s m n t hb
          (hml m (List.mem_cons_self _ _)) hnl hsn hne hl)

theorem processEntry_regular_event (env : Env) (b : CStr) (d v : Bool)
    (s : RunState) (n : CStr)
    (hb : b.length ≤ 4080) (h1 : n ≠ str ".") (h2 : n ≠ str "..")
    (hstat : statResult env s.fs (join_path 4096 b n) = some FType.regular) :
    ∃ ev, entryEvent b n ev ∧ ev ∈ (processEntry env b d v s n).log := by
  rcases processEntry_eq_cases env b d v s n with
    ⟨hd, _⟩ | ⟨_, hs, _⟩ | ⟨ft, _, hs, hnr, _⟩ | ⟨_, _, he⟩
  · rcases hd with hd | hd
    · exact absurd hd h1
    · exact absurd hd h2
  · rw [hstat] at hs
    cases hs
  · rw [hstat] at hs
    injection hs with hft
    exact absurd hft.symm hnr
  · rw [he]
    rcases actOn_eq_cases env b d s n (join_path 4096 b n) with
      ⟨hok, ha⟩ | ⟨hok, hbl, ha⟩ | ⟨dst, hok, hbl, hdry, ha⟩ |
      ⟨dst, hok, hbl, hdry, hren, ha⟩ | ⟨dst, hok, hbl, hdry, hren, ha⟩
    · rcases ensure_fail_log env s.fs b
          (category_for_extension (get_extension n)) 4096 hok with hlg | hlg
      · refine ⟨LogEvent.notADirConflict
            (join_path 4096 b (category_for_extension (get_extension n))),
          Or.inr (Or.inr (Or.inr (Or.inl rfl))), ?_⟩
        rw [ha]
        exact List.mem_append_right _
          (by rw [hlg]; exact List.mem_singleton.mpr rfl)
      · refine ⟨LogEvent.mkdirFailed
            (join_path 4096 b (category_for_extension (get_extension n))),
          Or.inr (Or.inr (Or.inr (Or.inr (Or.inl rfl)))), ?_⟩
        rw [ha]
        exact List.mem_append_right _
          (by rw [hlg]; exact List.mem_singleton.mpr rfl)
    · refine ⟨LogEvent.nameExhausted n
          (join_path 4096 b (category_for_extension (get_extension n))),
        Or.inr (Or.inr (Or.inr (Or.inr (Or.inr rfl)))), ?_⟩
      rw [ha, ensure_path]
      exact List.mem_append_right _ (List.mem_singleton.mpr rfl)
    · rw [ensure_path] at hbl
      obtain ⟨rest, hrest⟩ := build_unique_shape env
        (ensure_directory_exists env s.fs b
          (category_for_extension (get_extension n)) 4096).fs b n dst hb hbl
      refine ⟨LogEvent.dryRunMove (join_path 4096 b n) dst,
        Or.inr (Or.inl ⟨rest, by rw [hrest]⟩), ?_⟩
      rw [ha]
      exact List.mem_append_right _ (List.mem_singleton.mpr rfl)
    · rw [ensure_path] at hbl
      obtain ⟨rest, hrest⟩ := build_unique_shape env
        (ensure_directory_exists env s.fs b
          (category_for_extension (get_extension n)) 4096).fs b n dst hb hbl
      refine ⟨LogEvent.moved (join_path 4096 b n) dst,
        Or.inl ⟨rest, by rw [hrest]⟩, ?_⟩
      rw [ha]
      exact List.mem_append_right _ (List.mem_singleton.mpr rfl)
    · rw [ensure_path] at hbl
      obtain ⟨rest, hrest⟩ := build_unique_shape env
        (ensure_directory_exists env s.fs b
          (category_for_extension (get_extension n)) 4096).fs b n dst hb hbl
      refine ⟨LogEvent.moveFailed (join_path 4096 b n) dst,
        Or.inr (Or.inr (Or.inl ⟨rest, by rw [hrest]⟩)), ?_⟩
      rw [ha]
      exact List.mem_append_right _ (List.mem_singleton.mpr rfl)

theorem foldl_entry_invariant (env : Env) (b : CStr) (d v : Bool) :
    ∀ (l : List CStr) (s : RunState),
      b.length ≤ 4080 →
      (∀ n ∈ l, b.length + 1 + n.length ≤ 4095) →
      (∀ n ∈ l, '/' ∉ n) →
      l.Nodup →
      ∀ n ∈ l,
        ((n ≠ str "." → n ≠ str ".." →
          statResult env s.fs (join_path 4096 b n) = some FType.regular →
          ∃ ev, entryEvent b n ev
            ∧ ev ∈ (l.foldl (processEntry env b d v) s).log)
        ∧ (∀ t, t ≠ FType.regular →
            lookupPath s.fs (join_path 4096 b n) = some t →
            lookupPath (l.foldl (processEntry env b d v) s).fs
              (join_path 4096 b n) = some t)) := by
  intro l
  induction l with
  | nil => intro s _ _ _ _ n hn; cases hn
  | cons m rest ih =>
      intro s hb hlen hslash hnodup n hn
      rw [List.foldl_cons]
      have hmlen := hlen m (List.mem_cons_self _ _)
      have hnd := List.nodup_cons.mp hnodup
      rcases List.mem_cons.mp hn with rfl | hmem
      · constructor
        · intro hd1 hd2 hstat
          obtain ⟨ev, hev, hmemlog⟩ :=
            processEntry_regular_event env b d v s n hb hd1 hd2 hstat
          exact ⟨ev, hev, mem_log_foldl env b d v rest _ ev hmemlog⟩
        · intro t ht hl
          have hstep : lookupPath (processEntry env b d v s n).fs
              (join_path 4096 b n) = some t := by
            rcases processEntry_eq_cases env b d v s n with
              ⟨_, he⟩ | ⟨_, _, he⟩ | ⟨ft, _, _, _, he | he⟩ | ⟨_, hs, _⟩
            · rw [he]; exact hl
            · rw [he]; exact hl
            · rw [he]; exact hl
            · rw [he]; exact hl
            · exfalso
              have hlreg : lookupPath s.fs (join_path 4096 b n)
                  = some FType.regular := by
                by_cases hso : env.statOk (join_path 4096 b n) = true
                · rw [statResult, if_pos hso] at hs
                  exact hs
                · rw [statResult, if_neg hso] at hs
                  cases hs
              rw [hl] at hlreg
              injection hlreg with hcontra
              exact ht hcontra
          exact foldl_preserves_lookup env b d v rest (processEntry env b d v s n)
            n t hb (fun x hx => hlen x (List.mem_cons_of_mem _ hx))
            (hlen n (List.mem_cons_self _ _)) (hslash n (List.mem_cons_self _ _))
            hnd.1 hstep
      · have hne : m ≠ n := fun hc => hnd.1 (hc ▸ hmem)
        have hnlen := hlen n (List.mem_cons_of_mem _ hmem)
        have hnsl := hslash n (List.mem_cons_of_mem _ hmem)
        have ihh := ih (processEntry env b d v s m) hb
          (fun x hx => hlen x (List.mem_cons_of_mem _ hx))
          (fun x hx => hslash x (List.mem_cons_of_mem _ hx)) hnd.2 n hmem
        constructor
        · intro hd1 hd2 hstat
          refine ihh.1 hd1 hd2 ?_
          by_cases hso : env.statOk (join_path 4096 b n) = true
          · have hlk : lookupPath s.fs (join_path 4096 b n)
                = some FType.regular := by
              rw [statResult, if_pos hso] at hstat
              exact hstat
            have hpres := processEntry_preserves_lookup env b d v s m n
              FType.regular hb hmlen hnlen hnsl hne hlk
            rw [statResult, if_pos hso]
            exact hpres
          · rw [statResult, if_neg hso] at hstat
            cases hstat
        · intro t ht hl
          exact ihh.2 t ht (processEntry_preserves_lookup env b d v s m n t hb
            hmlen hnlen hnsl hne hl)

/-- C4: in every validated run over distinct slash-free entry names that
fit the path buffer, each entry that is a regular file at scan time either
has a move (performed, planned under dry-run, or failed) into its unique
extension-determined category directory in the final log, or a reported
per-entry error; and every non-regular entry (directories, symlinks,
devices — and '.'/'..', which are skipped outright) is never acted upon:
its filesystem binding is unchanged by the run. -/
theorem organizer_run_entry_invariant (env : Env) (base : CStr)
    (dry verb : Bool) (entries : List CStr) (fs : FS)
    (hvalid : statResult env fs base = some FType.directory)
    (hopen : env.opendirOk base = true)
    (hb : base.length ≤ 4080)
    (hlen : ∀ n ∈ entries, base.length + 1 + n.length ≤ 4095)
    (hslash : ∀ n ∈ entries, '/' ∉ n)
    (hnodup : entries.Nodup) :
    (∀ n ∈ entries, n ≠ str "." → n ≠ str ".." →
       statResult env fs (join_path 4096 base n) = some FType.regular →
       ∃ ev, entryEvent base n ev
         ∧ ev ∈ (organizer_run env (some ⟨some base, dry, verb⟩) entries fs).log)
    ∧ (∀ n ∈ entries, ∀ t, t ≠ FType.regular →
       lookupPath fs (join_path 4096 base n) = some t →
       lookupPath (organizer_run env (some ⟨some base, dry, verb⟩) entries fs).fs
         (join_path 4096 base n) = some t) := by
  have hrun : organizer_run env (some ⟨some base, dry, verb⟩) entries fs
      = entries.foldl (processEntry env base dry verb)
          ⟨fs, 0, [LogEvent.organizing base dry]⟩ := by
    unfold organizer_run
    dsimp only
    rw [hvalid]
    dsimp only
    rw [if_pos rfl, if_pos hopen]
  constructor
  · intro n hn hd1 hd2 hstat
    rw [hrun]
    exact (foldl_entry_invariant env base dry verb entries
      ⟨fs, 0, [LogEvent.organizing base dry]⟩ hb hlen hslash hnodup n hn).1
      hd1 hd2 hstat
  · intro n hn t ht hl
    rw [hrun]
    exact (foldl_entry_invariant env base dry verb entries
      ⟨fs, 0, [LogEvent.organizing base dry]⟩ hb hlen hslash hnodup n hn).2
      t ht hl

/-- Witness for C4: in a directory with the regular file `a.jpg` and the
subdirectory `notes`, the run accounts for `a.jpg` with a category event
and leaves `notes` untouched. -/
theorem organizer_run_entry_invariant_witness :
    (∃ ev, entryEvent (str "/t") (str "a.jpg") ev
       ∧ ev ∈ (organizer_run envOK (some ⟨some (str "/t"), false, false⟩)
           [str "a.jpg", str "notes"]
           [(str "/t", FType.directory), (str "/t/a.jpg", FType.regular),
            (str "/t/notes", FType.directory)]).log)
    ∧ lookupPath (organizer_run envOK (some ⟨some (str "/t"), false, false⟩)
        [str "a.jpg", str "notes"]
        [(str "/t", FType.directory), (str "/t/a.jpg", FType.regular),
         (str "/t/notes", FType.directory)]).fs
        (join_path 4096 (str "/t") (str "notes")) = some FType.directory :=
  ⟨(organizer_run_entry_invariant envOK (str "/t") false false
      [str "a.jpg", str "notes"]
      [(str "/t", FType.directory), (str "/t/a.jpg", FType.regular),
       (str "/t/notes", FType.directory)]
      (by decide) (by decide) (by decide) (by decide) (by decide) (by decide)).1
      (str "a.jpg") (by decide) (by decide) (by decide) (by decide),
   (organizer_run_entry_invariant envOK (str "/t") false false
      [str "a.jpg", str "notes"]
      [(str "/t", FType.directory), (str "/t/a.jpg", FType.regular),
       (str "/t/notes", FType.directory)]
      (by decide) (by decide) (by decide) (by decide) (by decide) (by decide)).2
      (str "notes") (by decide) FType.directory (by decide) (by decide)⟩
